import Mathlib

/-!
Verification of the training script `lstm_genre_classifier_pytorch.py`.

The script loads cached feature tensors (or regenerates them when any cache
file is missing), builds a 2-layer LSTM followed by a linear layer and a
log-softmax, and runs 400 epochs of minibatch training, printing one
loss/accuracy line per epoch.

Shallow embedding conventions:
  * real-valued tensors are total functions out of `Fin`-indexed shapes
    (time-major sequences are `List`s of time slices), with entries in `ℝ`;
  * integer label tensors have entries in `ℤ`, and label rows are `List ℤ`;
  * the scalar arithmetic of `get_accuracy` (`100.0 * corrects / batch_size`)
    is carried out in `ℚ` so that concrete instances can be decided;
  * `loss.backward()` followed by `optimizer.step()` is an external library
    call: it is modelled by an abstract parameter-update function `upd`
    (universally quantified in every theorem), which also carries the
    optimizer's internal state in an abstract type `σ`;
  * Python's `%`-formatting of floats is modelled by abstract rendering
    functions `fmt4 : ℝ → String` and `fmt2 : ℚ → String`; the surrounding
    literal text of the format string is embedded exactly;
  * `int(train_X.shape[0] / batch_size)` is embedded as natural-number
    (floor) division.
-/

namespace LSTMGenre

/-! ### Program constants (source lines 94-95 and the model instantiation) -/

def batch_size : Nat := 35

def num_epochs : Nat := 400

def input_dim : Nat := 33

def hidden_dim : Nat := 128

def output_dim : Nat := 8

def num_layers : Nat := 2

/-- Embedding of `num_batches = int(train_X.shape[0] / batch_size)`
(source line 113), as floor division on naturals. -/
def num_batchesOf (n b : Nat) : Nat := n / b

/-! ### torch.max(·, 1)[1] : row-wise argmax, first maximal index -/

/-- Recursive worker for `torchMax1Idx`: `bi` is the index of the best value
seen so far, `bv` that value, `i` the index of the head of the remaining
list; a later entry replaces the best only when strictly larger. -/
def argmaxAux {α : Type} [LinearOrder α] (bi : Nat) (bv : α) (i : Nat) : List α → Nat
  | [] => bi
  | x :: xs => if bv < x then argmaxAux i x (i + 1) xs else argmaxAux bi bv (i + 1) xs

/-- Embedding of `torch.max(row, dim=...)[1]` on one row: the index of the
first maximal entry (0 on an empty row). Used both for the label conversion
`torch.max(y_local_minibatch, 1)[1]` (source line 140) and for the
prediction argmax inside `get_accuracy` (source line 89). -/
def torchMax1Idx {α : Type} [LinearOrder α] : List α → Nat
  | [] => 0
  | x :: xs => argmaxAux 0 x 1 xs

/-! ### LSTM.get_accuracy (source lines 87-91) -/

/-- Embedding of
`corrects = (torch.max(logits, 1)[1].view(target.size()).data == target.data).sum()`:
the number of rows whose argmax equals the corresponding target index. -/
def matchCount {α : Type} [LinearOrder α] (logits : List (List α)) (target : List Nat) : Nat :=
  ((logits.map torchMax1Idx).zip target).countP (fun p => p.1 == p.2)

/-- Embedding of `LSTM.get_accuracy` (source lines 87-91):
`accuracy = 100.0 * corrects / self.batch_size`. The divisor is the
constructor-baked `batch_size` field, not the length of `target`. -/
def get_accuracy {α : Type} [LinearOrder α] (batchSize : Nat)
    (logits : List (List α)) (target : List Nat) : ℚ :=
  100 * (matchCount logits target : ℚ) / (batchSize : ℚ)

/-! ### Startup cache check (source lines 30-42) -/

/-- The two possible startup data-loading actions. -/
inductive StartupAction : Type
  | deserialize : StartupAction
  | preprocess : StartupAction
  deriving DecidableEq

/-- Embedding of the startup branch (source lines 30-42): the six booleans
are the `os.path.isfile` results for the train/dev/test X/Y cache paths;
`load_deserialize_data` runs when all six files exist, otherwise
`load_preprocess_data` runs. -/
def startupAction (e1 e2 e3 e4 e5 e6 : Bool) : StartupAction :=
  if e1 && e2 && e3 && e4 && e5 && e6 then StartupAction.deserialize
  else StartupAction.preprocess

/-! ### LSTM.init_hidden (source lines 72-76) -/

/-- Embedding of `torch.zeros(a, b, c)` as a nested list of rationals. -/
def torchZeros3 (a b c : Nat) : List (List (List ℚ)) :=
  List.replicate a (List.replicate b (List.replicate c 0))

/-- Embedding of `LSTM.init_hidden` (source lines 72-76): a pair of
zero-filled tensors, each of shape `[num_layers, batch_size, hidden_dim]`. -/
def init_hidden (numLayers batchSize hiddenDim : Nat) :
    List (List (List ℚ)) × List (List (List ℚ)) :=
  (torchZeros3 numLayers batchSize hiddenDim, torchZeros3 numLayers batchSize hiddenDim)

/-! ### One-hot label rows -/

/-- A label row is one-hot at `j` when entry `j` is `1` and every other
in-range entry is `0`. -/
def isOneHot (row : List ℤ) (j : Nat) : Prop :=
  j < row.length ∧ row.getD j 0 = 1 ∧ ∀ k, k < row.length → k ≠ j → row.getD k 0 = 0

instance (row : List ℤ) (j : Nat) : Decidable (isOneHot row j) := by
  unfold isOneHot
  infer_instance

/-! ### The model: nn.LSTM (2 layers) + nn.Linear + F.log_softmax
(source lines 58-85). Real-valued vectors are functions out of `Fin`. -/

/-- Dot product of two real vectors. -/
noncomputable def dotv {n : Nat} (w x : Fin n → ℝ) : ℝ := ∑ j, w j * x j

/-- The logistic sigmoid used by the LSTM gates. -/
noncomputable def sigmoid (x : ℝ) : ℝ := 1 / (1 + Real.exp (-x))

/-- Parameters of one `nn.LSTM` layer: input, forget, cell and output gate
weights against the input (`w..`) and the recurrent hidden state (`u..`),
with the two PyTorch bias vectors per gate. -/
structure LSTMLayerP (din dh : Nat) : Type where
  wi : Fin dh → Fin din → ℝ
  ui : Fin dh → Fin dh → ℝ
  bwi : Fin dh → ℝ
  bui : Fin dh → ℝ
  wf : Fin dh → Fin din → ℝ
  uf : Fin dh → Fin dh → ℝ
  bwf : Fin dh → ℝ
  buf : Fin dh → ℝ
  wg : Fin dh → Fin din → ℝ
  ug : Fin dh → Fin dh → ℝ
  bwg : Fin dh → ℝ
  bug : Fin dh → ℝ
  wo : Fin dh → Fin din → ℝ
  uo : Fin dh → Fin dh → ℝ
  bwo : Fin dh → ℝ
  buo : Fin dh → ℝ

/-- One LSTM cell step on a single sequence element:
`i = σ(W_ii x + b_ii + W_hi h + b_hi)`, similarly `f` and `o`,
`g = tanh(...)`, `c' = f*c + i*g`, `h' = o * tanh(c')`.
Returns the new `(h, c)`. -/
noncomputable def lstmCell {din dh : Nat} (p : LSTMLayerP din dh)
    (x : Fin din → ℝ) (h c : Fin dh → ℝ) : (Fin dh → ℝ) × (Fin dh → ℝ) :=
  let gi := fun k => sigmoid (dotv (p.wi k) x + p.bwi k + dotv (p.ui k) h + p.bui k)
  let gf := fun k => sigmoid (dotv (p.wf k) x + p.bwf k + dotv (p.uf k) h + p.buf k)
  let gg := fun k => Real.tanh (dotv (p.wg k) x + p.bwg k + dotv (p.ug k) h + p.bug k)
  let go := fun k => sigmoid (dotv (p.wo k) x + p.bwo k + dotv (p.uo k) h + p.buo k)
  let cn := fun k => gf k * c k + gi k * gg k
  (fun k => go k * Real.tanh (cn k), cn)

/-- Runs one LSTM layer over a time-major sequence of batched inputs,
starting from hidden/cell state `st`; returns the per-timestep hidden
outputs and the final state. Batch elements evolve independently. -/
noncomputable def lstmLayerSeq {B din dh : Nat} (p : LSTMLayerP din dh) :
    List (Fin B → Fin din → ℝ) →
    ((Fin B → Fin dh → ℝ) × (Fin B → Fin dh → ℝ)) →
    List (Fin B → Fin dh → ℝ) × ((Fin B → Fin dh → ℝ) × (Fin B → Fin dh → ℝ))
  | [], st => ([], st)
  | x :: xs, st =>
      let stepped := fun b => lstmCell p (x b) (st.1 b) (st.2 b)
      let hn : Fin B → Fin dh → ℝ := fun b => (stepped b).1
      let cn : Fin B → Fin dh → ℝ := fun b => (stepped b).2
      let rest := lstmLayerSeq p xs (hn, cn)
      (hn :: rest.1, rest.2)

/-- Parameters of the whole model built at source lines 99-105:
`nn.LSTM(input_dim, hidden_dim, num_layers)` with `num_layers = 2`
(so exactly two stacked layers) followed by `nn.Linear(hidden_dim, output_dim)`. -/
structure ModelParams (inputDim hiddenDim outputDim : Nat) : Type where
  layer1 : LSTMLayerP inputDim hiddenDim
  layer2 : LSTMLayerP hiddenDim hiddenDim
  linW : Fin outputDim → Fin hiddenDim → ℝ
  linB : Fin outputDim → ℝ

/-- The all-zero hidden/cell state pair that `self.lstm(input)` starts from
when no initial state is passed. -/
noncomputable def zeroState (B dh : Nat) :
    (Fin B → Fin dh → ℝ) × (Fin B → Fin dh → ℝ) :=
  (fun _ _ => 0, fun _ _ => 0)

/-- Embedding of `lstm_out[-1]` (source line 81): the hidden output of the
top layer at the last time step (the zero initial state for an empty
sequence). -/
noncomputable def lastTimestepOutput {I H B : Nat}
    (l1 : LSTMLayerP I H) (l2 : LSTMLayerP H H)
    (input : List (Fin B → Fin I → ℝ)) : Fin B → Fin H → ℝ :=
  ((lstmLayerSeq l2 (lstmLayerSeq l1 input (zeroState B H)).1 (zeroState B H)).1).getLastD
    (fun _ _ => 0)

/-- Embedding of `F.log_softmax(v, dim=1)` on one row. -/
noncomputable def logSoftmax {n : Nat} (v : Fin n → ℝ) : Fin n → ℝ :=
  fun j => v j - Real.log (∑ k, Real.exp (v k))

/-- Embedding of `LSTM.forward` (source lines 78-85): run the two stacked
recurrent layers over the time-major input (the call `self.lstm(input)`
passes no initial state, so both layers start from zeros), keep only the
final time step, apply the linear layer, and log-softmax each row. -/
noncomputable def forward {I H C B : Nat} (p : ModelParams I H C)
    (input : List (Fin B → Fin I → ℝ)) : Fin B → Fin C → ℝ :=
  fun b => logSoftmax
    (fun j => dotv (p.linW j) (lastTimestepOutput p.layer1 p.layer2 input b) + p.linB j)

/-! ### The training loop (source lines 110-153) -/

/-- The absolute training-set index `i * batch_size + b` read by minibatch
`i` at in-batch position `b`; it is in range because `i < N / batch_size`. -/
def sliceIdx {N : Nat} (i : Fin (num_batchesOf N batch_size)) (b : Fin batch_size) : Fin N :=
  ⟨i.val * batch_size + b.val, by
    have hi : i.val + 1 ≤ num_batchesOf N batch_size := i.isLt
    have h1 : i.val * batch_size + b.val < (i.val + 1) * batch_size := by
      have := b.isLt
      nlinarith
    have h2 : (i.val + 1) * batch_size ≤ (N / batch_size) * batch_size :=
      Nat.mul_le_mul_right batch_size hi
    have h3 : (N / batch_size) * batch_size ≤ N := Nat.div_mul_le_self N batch_size
    omega⟩

/-- Embedding of `train_X[i * batch_size: (i + 1) * batch_size,]`
(source lines 131-134): minibatch `i` of the feature tensor. -/
def sliceX {N S : Nat} (trainX : Fin N → Fin S → Fin input_dim → ℝ)
    (i : Fin (num_batchesOf N batch_size)) : Fin batch_size → Fin S → Fin input_dim → ℝ :=
  fun b => trainX (sliceIdx i b)

/-- Embedding of `train_Y[i * batch_size: (i + 1) * batch_size,]`
(source lines 131-134): minibatch `i` of the one-hot label rows. -/
def sliceY {N : Nat} (trainY : Fin N → List ℤ)
    (i : Fin (num_batchesOf N batch_size)) : Fin batch_size → List ℤ :=
  fun b => trainY (sliceIdx i b)

/-- Embedding of `X_local_minibatch.permute(1, 0, 2)` (source line 137):
reorder a `[batch, seq, feature]` tensor into the time-major list of
`[batch, feature]` slices that `forward` consumes. -/
def permute102 {B S d : Nat} (X : Fin B → Fin S → Fin d → ℝ) :
    List (Fin B → Fin d → ℝ) :=
  (List.finRange S).map (fun t => fun b f => X b t f)

/-- Embedding of `torch.max(y_local_minibatch, 1)[1]` (source line 140):
convert each one-hot label row of the minibatch to a class index. -/
def toClassIdx {B : Nat} (y : Fin B → List ℤ) : Fin B → Nat :=
  fun b => torchMax1Idx (y b)

/-- Embedding of `nn.NLLLoss()(y_pred, y)` with its default mean reduction:
minus the mean over the batch of the predicted log-probability of the
target class (out-of-range target indices contribute zero). -/
noncomputable def nllLoss {B C : Nat} (pred : Fin B → Fin C → ℝ) (tgt : Fin B → Nat) : ℝ :=
  -(∑ b, if h : tgt b < C then pred b ⟨tgt b, h⟩ else 0) / (B : ℝ)

/-- Materialize a `Fin`-indexed vector as a list (used to feed the
`Fin`-shaped predictions to the list-shaped `get_accuracy`). -/
def finToList {n : Nat} {α : Type} (f : Fin n → α) : List α :=
  (List.finRange n).map f

/-- The concrete parameter type of the model built at source lines 99-105. -/
abbrev MP : Type := ModelParams input_dim hidden_dim output_dim

/-- The data handed to the external `loss.backward(); optimizer.step()`
update: the permuted minibatch and its class-index targets. -/
abbrev BatchData : Type :=
  (List (Fin batch_size → Fin input_dim → ℝ)) × (Fin batch_size → Nat)

/-- The mutable program state threaded through the loop: the optimizer's
internal state (abstract type `σ`), the model parameters, and the
`model.hidden` attribute (absent before its first assignment). -/
structure LoopState (σ : Type) : Type where
  optS : σ
  params : MP
  hidden : Option (List (List (List ℚ)) × List (List (List ℚ)))

/-- One iteration of the inner batch loop (source lines 121-148): slice the
minibatch, permute it, convert labels to class indices, run the forward
pass, compute the NLL loss and the accuracy from the predictions, then let
the external backward/optimizer update act on the optimizer state and
parameters. The accumulator carries the running loss and accuracy sums. -/
noncomputable def batchStep {σ : Type} {N S : Nat}
    (upd : σ × MP → BatchData → σ × MP)
    (trainX : Fin N → Fin S → Fin input_dim → ℝ) (trainY : Fin N → List ℤ)
    (acc : (σ × MP) × ℝ × ℚ) (i : Fin (num_batchesOf N batch_size)) :
    (σ × MP) × ℝ × ℚ :=
  let Xl := permute102 (sliceX trainX i)
  let yl := toClassIdx (sliceY trainY i)
  let yPred := forward acc.1.2 Xl
  let loss := nllLoss yPred yl
  let accv := get_accuracy batch_size (finToList (fun b => finToList (yPred b))) (finToList yl)
  (upd acc.1 (Xl, yl), (acc.2.1 + loss, acc.2.2 + accv))

/-- The full inner batch loop of one epoch, starting from zero running loss
and accuracy (source lines 116-148), acting on the optimizer state and
parameters only. -/
noncomputable def epochBatches {σ : Type} {N S : Nat}
    (upd : σ × MP → BatchData → σ × MP)
    (trainX : Fin N → Fin S → Fin input_dim → ℝ) (trainY : Fin N → List ℤ)
    (sp : σ × MP) : (σ × MP) × ℝ × ℚ :=
  (List.finRange (num_batchesOf N batch_size)).foldl (batchStep upd trainX trainY) (sp, 0, 0)

/-- One epoch as written (source lines 115-148): first
`model.hidden = model.init_hidden()`, then the batch loop. Returns the new
state and the epoch's accumulated (loss, accuracy). -/
noncomputable def epochStepReinit {σ : Type} {N S : Nat}
    (upd : σ × MP → BatchData → σ × MP)
    (trainX : Fin N → Fin S → Fin input_dim → ℝ) (trainY : Fin N → List ℤ)
    (st : LoopState σ) : LoopState σ × ℝ × ℚ :=
  let hid := some (init_hidden num_layers batch_size hidden_dim)
  let r := epochBatches upd trainX trainY (st.optS, st.params)
  (⟨r.1.1, r.1.2, hid⟩, r.2)

/-- One epoch with the `model.hidden = model.init_hidden()` line removed:
identical to `epochStepReinit` except that the `hidden` attribute is left
untouched. -/
noncomputable def epochStepNoReinit {σ : Type} {N S : Nat}
    (upd : σ × MP → BatchData → σ × MP)
    (trainX : Fin N → Fin S → Fin input_dim → ℝ) (trainY : Fin N → List ℤ)
    (st : LoopState σ) : LoopState σ × ℝ × ℚ :=
  let r := epochBatches upd trainX trainY (st.optS, st.params)
  (⟨r.1.1, r.1.2, st.hidden⟩, r.2)

/-- Runs `n` epochs as written; returns the final state and the per-epoch
(loss, accuracy) sums in order. -/
noncomputable def runEpochsReinit {σ : Type} {N S : Nat}
    (upd : σ × MP → BatchData → σ × MP)
    (trainX : Fin N → Fin S → Fin input_dim → ℝ) (trainY : Fin N → List ℤ) :
    LoopState σ → Nat → LoopState σ × List (ℝ × ℚ)
  | st, 0 => (st, [])
  | st, n + 1 =>
      let r := epochStepReinit upd trainX trainY st
      let rest := runEpochsReinit upd trainX trainY r.1 n
      (rest.1, r.2 :: rest.2)

/-- Runs `n` epochs of the variant without the hidden-state
reinitialization. -/
noncomputable def runEpochsNoReinit {σ : Type} {N S : Nat}
    (upd : σ × MP → BatchData → σ × MP)
    (trainX : Fin N → Fin S → Fin input_dim → ℝ) (trainY : Fin N → List ℤ) :
    LoopState σ → Nat → LoopState σ × List (ℝ × ℚ)
  | st, 0 => (st, [])
  | st, n + 1 =>
      let r := epochStepNoReinit upd trainX trainY st
      let rest := runEpochsNoReinit upd trainX trainY r.1 n
      (rest.1, r.2 :: rest.2)

/-- Embedding of the per-epoch print (source lines 150-153). The format
string is exactly the source's
`"Epoch:  %d | NLLoss: %.4f | Train Accuracy: %.2f"`; the already-rendered
float fields are passed as strings. -/
def epochLine (epoch : Nat) (lossStr accStr : String) : String :=
  "Epoch:  " ++ toString epoch ++ " | NLLoss: " ++ lossStr
    ++ " | Train Accuracy: " ++ accStr

/-- The epoch line as the specification words it: a single space after each
colon. Written from the spec for comparison with `epochLine`. -/
def specEpochLine (epoch : Nat) (lossStr accStr : String) : String :=
  "Epoch: " ++ toString epoch ++ " | NLLoss: " ++ lossStr
    ++ " | Train Accuracy: " ++ accStr

/-- The list of lines printed by the training loop (source lines 115-153):
one line per epoch, showing the accumulated loss and accuracy each divided
by `num_batches`, rendered by the abstract float formatters `fmt4` and
`fmt2`. -/
noncomputable def trainingLines {σ : Type} {N S : Nat}
    (fmt4 : ℝ → String) (fmt2 : ℚ → String)
    (upd : σ × MP → BatchData → σ × MP)
    (trainX : Fin N → Fin S → Fin input_dim → ℝ) (trainY : Fin N → List ℤ)
    (st0 : LoopState σ) : List String :=
  ((runEpochsReinit upd trainX trainY st0 num_epochs).2.enum).map
    (fun p => epochLine p.1
      (fmt4 (p.2.1 / (num_batchesOf N batch_size : ℝ)))
      (fmt2 (p.2.2 / (num_batchesOf N batch_size : ℚ))))

/-- The printed lines of the variant without the hidden-state
reinitialization. -/
noncomputable def trainingLinesNoReinit {σ : Type} {N S : Nat}
    (fmt4 : ℝ → String) (fmt2 : ℚ → String)
    (upd : σ × MP → BatchData → σ × MP)
    (trainX : Fin N → Fin S → Fin input_dim → ℝ) (trainY : Fin N → List ℤ)
    (st0 : LoopState σ) : List String :=
  ((runEpochsNoReinit upd trainX trainY st0 num_epochs).2.enum).map
    (fun p => epochLine p.1
      (fmt4 (p.2.1 / (num_batchesOf N batch_size : ℝ)))
      (fmt2 (p.2.2 / (num_batchesOf N batch_size : ℚ))))

/-- The per-epoch (loss, accuracy) sums of a full run, as a function of the
whole input of the program: the training tensors and, after them in the
source (lines 45-49), the test tensors `test_X` and `test_Y`. The loop body
(source lines 115-153) references only the training tensors. -/
noncomputable def programEpochStats {σ : Type} {N S M S2 : Nat}
    (upd : σ × MP → BatchData → σ × MP)
    (trainX : Fin N → Fin S → Fin input_dim → ℝ) (trainY : Fin N → List ℤ)
    (_testX : Fin M → Fin S2 → Fin input_dim → ℝ) (_testY : Fin M → List ℤ)
    (st0 : LoopState σ) : List (ℝ × ℚ) :=
  (runEpochsReinit upd trainX trainY st0 num_epochs).2

/-- The per-epoch printed lines of a full run, as a function of the whole
input of the program including the (unused) test tensors. -/
noncomputable def programLines {σ : Type} {N S M S2 : Nat}
    (fmt4 : ℝ → String) (fmt2 : ℚ → String)
    (upd : σ × MP → BatchData → σ × MP)
    (trainX : Fin N → Fin S → Fin input_dim → ℝ) (trainY : Fin N → List ℤ)
    (_testX : Fin M → Fin S2 → Fin input_dim → ℝ) (_testY : Fin M → List ℤ)
    (st0 : LoopState σ) : List String :=
  trainingLines fmt4 fmt2 upd trainX trainY st0

/-! ### Concrete instances used to exercise the loop theorems -/

/-- An all-zero LSTM layer parameter set. -/
noncomputable def zeroLayerP (din dh : Nat) : LSTMLayerP din dh :=
  ⟨fun _ _ => 0, fun _ _ => 0, fun _ => 0, fun _ => 0,
   fun _ _ => 0, fun _ _ => 0, fun _ => 0, fun _ => 0,
   fun _ _ => 0, fun _ _ => 0, fun _ => 0, fun _ => 0,
   fun _ _ => 0, fun _ _ => 0, fun _ => 0, fun _ => 0⟩

/-- An all-zero model parameter set at the program's dimensions. -/
noncomputable def zeroMP : MP :=
  ⟨zeroLayerP input_dim hidden_dim, zeroLayerP hidden_dim hidden_dim,
   fun _ _ => 0, fun _ => 0⟩

/-- A concrete 36-example training feature tensor (sequence length 1),
identically zero. With 36 examples and batch size 35 there is exactly one
minibatch and one dropped tail example. -/
noncomputable def wTrainX : Fin 36 → Fin 1 → Fin input_dim → ℝ := fun _ _ _ => 0

/-- A variant of `wTrainX` that differs from it exactly on the dropped tail
example (index 35). -/
noncomputable def wTrainX' : Fin 36 → Fin 1 → Fin input_dim → ℝ :=
  fun k _ _ => if (k : Nat) < 35 then 0 else 1

/-- A concrete 36-example training label tensor. -/
def wTrainY : Fin 36 → List ℤ := fun _ => []

/-- A concrete initial loop state with a trivial optimizer state. -/
noncomputable def wState : LoopState Unit := ⟨(), zeroMP, none⟩

/-! ## Helper lemmas -/

/-- If no remaining entry strictly beats the current best value, the best
index is returned unchanged. -/
theorem argmaxAux_of_no_improvement {α : Type} [LinearOrder α] :
    ∀ (xs : List α) (bi i : Nat) (bv : α), (∀ x ∈ xs, ¬ bv < x) →
      argmaxAux bi bv i xs = bi := by
  intro xs
  induction xs with
  | nil => intro bi i bv _; rfl
  | cons x xs ih =>
      intro bi i bv h
      have hx : ¬ bv < x := h x (List.mem_cons_self x xs)
      simp only [argmaxAux, if_neg hx]
      exact ih bi (i + 1) bv (fun z hz => h z (List.mem_cons_of_mem x hz))

/-- Scanning a block of zeros followed by a one and zeros, starting with
best value `0`, lands on the index of the one. -/
theorem argmaxAux_zeros_one :
    ∀ (k m bi i : Nat),
      argmaxAux bi (0 : ℤ) i (List.replicate k 0 ++ 1 :: List.replicate m 0) = i + k := by
  intro k
  induction k with
  | zero =>
      intro m bi i
      have h01 : (0 : ℤ) < 1 := by decide
      rw [List.replicate_zero, List.nil_append]
      simp only [argmaxAux, if_pos h01]
      have := argmaxAux_of_no_improvement (α := ℤ) (List.replicate m 0) i (i + 1) 1
        (fun x hx => by
          have hx0 : x = 0 := List.eq_of_mem_replicate hx
          simp [hx0])
      omega
  | succ k ih =>
      intro m bi i
      have h00 : ¬ (0 : ℤ) < 0 := by decide
      rw [List.replicate_succ, List.cons_append]
      simp only [argmaxAux, if_neg h00]
      rw [ih m bi (i + 1)]
      omega

/-- The row-wise argmax of a canonical one-hot integer row is the position
of its one. -/
theorem torchMax1Idx_oneHot_canonical (j m : Nat) :
    torchMax1Idx (List.replicate j (0 : ℤ) ++ 1 :: List.replicate m 0) = j := by
  cases j with
  | zero =>
      simp only [List.replicate, List.nil_append, torchMax1Idx]
      exact argmaxAux_of_no_improvement (List.replicate m 0) 0 1 1
        (fun x hx => by
          have hx0 : x = 0 := List.eq_of_mem_replicate hx
          simp [hx0])
  | succ j =>
      simp only [List.replicate, List.cons_append, torchMax1Idx]
      have := argmaxAux_zeros_one j m 0 1
      omega

/-- Every one-hot row is of the canonical replicate-append form. -/
theorem oneHot_canonical :
    ∀ (row : List ℤ) (j : Nat), isOneHot row j →
      row = List.replicate j 0 ++ 1 :: List.replicate (row.length - j - 1) 0 := by
  intro row
  induction row with
  | nil =>
      intro j h
      exact absurd h.1 (by simp)
  | cons a rest ih =>
      intro j h
      obtain ⟨hj, hone, hzero⟩ := h
      cases j with
      | zero =>
          have ha : a = 1 := hone
          have hrest : ∀ b ∈ rest, b = (0 : ℤ) := by
            intro b hb
            obtain ⟨k, hk, hbk⟩ := List.mem_iff_getElem.mp hb
            have := hzero (k + 1) (by simp; omega) (by omega)
            rw [List.getD_cons_succ, List.getD_eq_getElem rest 0 hk] at this
            rw [← hbk]
            exact this
          have hrep : rest = List.replicate rest.length 0 :=
            List.eq_replicate_of_mem hrest
          rw [List.replicate_zero, List.nil_append, ha]
          simp only [List.length_cons]
          rw [show (rest.length + 1 - 0 - 1) = rest.length by omega]
          rw [← hrep]
      | succ j =>
          have ha : a = 0 := by
            have := hzero 0 (by simp) (by omega)
            exact this
          have hsub : isOneHot rest j := by
            refine ⟨by simp at hj; omega, ?_, ?_⟩
            · have := hone
              rw [List.getD_cons_succ] at this
              exact this
            · intro k hk hkj
              have := hzero (k + 1) (by simp; omega) (by omega)
              rw [List.getD_cons_succ] at this
              exact this
          have hre := ih j hsub
          rw [List.replicate_succ, List.cons_append, ha]
          simp only [List.length_cons]
          rw [show (rest.length + 1 - (j + 1) - 1) = rest.length - j - 1 by omega]
          rw [← hre]

/-! ## Claims -/

/-- C5: at startup, `load_deserialize_data` runs if and only if all six
cache files exist, and `load_preprocess_data` runs if and only if at least
one of the six cache files is missing; there is no third branch, so no
partial-cache reuse occurs. -/
theorem startup_cache_all_or_nothing (e1 e2 e3 e4 e5 e6 : Bool) :
    (startupAction e1 e2 e3 e4 e5 e6 = StartupAction.deserialize ↔
      (e1 = true ∧ e2 = true ∧ e3 = true ∧ e4 = true ∧ e5 = true ∧ e6 = true)) ∧
    (startupAction e1 e2 e3 e4 e5 e6 = StartupAction.preprocess ↔
      (e1 = false ∨ e2 = false ∨ e3 = false ∨ e4 = false ∨ e5 = false ∨ e6 = false)) := by
  cases e1 <;> cases e2 <;> cases e3 <;> cases e4 <;> cases e5 <;> cases e6 <;> decide

/-- C6: the label conversion `torch.max(y_local_minibatch, 1)[1]` applied
to a minibatch maps every one-hot label row to the index of its single 1
entry. -/
theorem label_conversion_one_hot {B : Nat} (y : Fin B → List ℤ) (b : Fin B) (j : Nat)
    (h : isOneHot (y b) j) : toClassIdx y b = j := by
  unfold toClassIdx
  rw [oneHot_canonical (y b) j h, torchMax1Idx_oneHot_canonical]

/-- Witness for C6: the one-hot row `[0,0,1,0,0,0,0,0]` converts to class
index 2. -/
theorem label_conversion_one_hot_witness :
    isOneHot [0, 0, 1, 0, 0, 0, 0, 0] 2 ∧
      toClassIdx (fun _ : Fin 1 => ([0, 0, 1, 0, 0, 0, 0, 0] : List ℤ)) 0 = 2 :=
  ⟨by decide, label_conversion_one_hot (fun _ : Fin 1 => [0, 0, 1, 0, 0, 0, 0, 0]) 0 2 (by decide)⟩

/-- C7: for every configuration, `init_hidden` returns a pair of tensors,
each of shape `[num_layers, batch_size, hidden_dim]` with every entry zero.
(As a plain function of the three configuration numbers it has no side
effects on any other state.) -/
theorem init_hidden_shape_zero (L B H : Nat) :
    ((init_hidden L B H).1.length = L ∧ (init_hidden L B H).2.length = L) ∧
    (∀ plane ∈ (init_hidden L B H).1, plane.length = B ∧
      ∀ row ∈ plane, row.length = H ∧ ∀ z ∈ row, z = 0) ∧
    (∀ plane ∈ (init_hidden L B H).2, plane.length = B ∧
      ∀ row ∈ plane, row.length = H ∧ ∀ z ∈ row, z = 0) := by
  refine ⟨⟨by simp [init_hidden, torchZeros3], by simp [init_hidden, torchZeros3]⟩, ?_, ?_⟩ <;>
  · intro plane hp
    simp only [init_hidden, torchZeros3] at hp
    have hpe := List.eq_of_mem_replicate hp
    subst hpe
    refine ⟨by simp, ?_⟩
    intro row hr
    have hre := List.eq_of_mem_replicate hr
    subst hre
    exact ⟨by simp, fun z hz => List.eq_of_mem_replicate hz⟩

/-- Witness for C7 at configuration (1, 2, 3), evaluated on the first
layer plane. -/
theorem init_hidden_shape_zero_witness :
    (init_hidden 1 2 3).1.length = 1 ∧
      (List.replicate 2 (List.replicate 3 (0 : ℚ))).length = 2 :=
  ⟨(init_hidden_shape_zero 1 2 3).1.1,
    ((init_hidden_shape_zero 1 2 3).2.1 (List.replicate 2 (List.replicate 3 (0 : ℚ)))
      (by decide)).1⟩

/-- C2: on a batch of `B` prediction rows and `B` integer targets,
`get_accuracy` returns 100 times the number of argmax matches divided by
the batch size, and the value lies in the interval [0, 100]. -/
theorem get_accuracy_in_range {α : Type} [LinearOrder α] (B : Nat)
    (logits : List (List α)) (target : List Nat)
    (hl : logits.length = B) (ht : target.length = B) :
    get_accuracy B logits target = 100 * (matchCount logits target : ℚ) / (B : ℚ) ∧
      0 ≤ get_accuracy B logits target ∧ get_accuracy B logits target ≤ 100 := by
  have hc : matchCount logits target ≤ B := by
    have h1 : matchCount logits target ≤ ((logits.map torchMax1Idx).zip target).length :=
      List.countP_le_length _
    have h2 : ((logits.map torchMax1Idx).zip target).length = B := by
      simp [List.length_zip, hl, ht]
    omega
  refine ⟨rfl, ?_, ?_⟩
  · unfold get_accuracy
    positivity
  · unfold get_accuracy
    rcases Nat.eq_zero_or_pos B with hB | hB
    · have h0 : matchCount logits target = 0 := by omega
      simp [h0, hB]
    · have hBQ : (0 : ℚ) < (B : ℚ) := by exact_mod_cast hB
      rw [div_le_iff₀ hBQ]
      have hcq : (matchCount logits target : ℚ) ≤ (B : ℚ) := by exact_mod_cast hc
      nlinarith

/-- Witness for C2 on a concrete 2-row batch. -/
theorem get_accuracy_in_range_witness :
    (([[(1 : ℚ), 0], [0, 1]] : List (List ℚ)).length = 2 ∧
        ([0, 0] : List Nat).length = 2) ∧
      (0 ≤ get_accuracy 2 ([[(1 : ℚ), 0], [0, 1]]) [0, 0] ∧
        get_accuracy 2 ([[(1 : ℚ), 0], [0, 1]]) [0, 0] ≤ 100) :=
  ⟨⟨by decide, by decide⟩,
    (get_accuracy_in_range 2 ([[(1 : ℚ), 0], [0, 1]]) [0, 0] (by decide) (by decide)).2⟩

/-- C10: `get_accuracy` always divides the match count by the
constructor-baked batch size, not by the number of target elements; with
the model's batch size 35 and a 70-element batch in which every prediction
matches, it returns 200, which exceeds 100. -/
theorem get_accuracy_exceeds_100 :
    (∀ (B : Nat) (logits : List (List ℚ)) (target : List Nat),
        get_accuracy B logits target = 100 * (matchCount logits target : ℚ) / (B : ℚ)) ∧
      (List.replicate 70 [(1 : ℚ), 0]).length = 70 ∧
      get_accuracy 35 (List.replicate 70 [(1 : ℚ), 0]) (List.replicate 70 0) = 200 ∧
      (100 : ℚ) < 200 := by
  refine ⟨fun B logits target => rfl, by simp, ?_, by norm_num⟩
  have harg : torchMax1Idx [(1 : ℚ), 0] = 0 := by
    have h10 : ¬ (1 : ℚ) < 0 := by norm_num
    simp [torchMax1Idx, argmaxAux, h10]
  have hzip : ∀ n : Nat,
      ((List.replicate n (0 : Nat)).zip (List.replicate n (0 : Nat))).countP
        (fun p => p.1 == p.2) = n := by
    intro n
    induction n with
    | zero => rfl
    | succ n ihn =>
        rw [List.replicate_succ, List.zip_cons_cons, List.countP_cons, ihn]
        simp
  have hm : matchCount (List.replicate 70 [(1 : ℚ), 0]) (List.replicate 70 0) = 70 := by
    unfold matchCount
    rw [List.map_replicate, harg]
    exact hzip 70
  unfold get_accuracy
  rw [hm]
  norm_num

/-- Exponentials of a log-softmax row sum to one (any nonempty row). -/
theorem sum_exp_logSoftmax {n : Nat} (v : Fin (n + 1) → ℝ) :
    ∑ j, Real.exp (logSoftmax v j) = 1 := by
  have hS : 0 < ∑ k, Real.exp (v k) :=
    Finset.sum_pos (fun k _ => Real.exp_pos (v k)) Finset.univ_nonempty
  unfold logSoftmax
  calc ∑ j, Real.exp (v j - Real.log (∑ k, Real.exp (v k)))
      = ∑ j, Real.exp (v j) / (∑ k, Real.exp (v k)) := by
        refine Finset.sum_congr rfl (fun j _ => ?_)
        rw [Real.exp_sub, Real.exp_log hS]
    _ = (∑ j, Real.exp (v j)) / (∑ k, Real.exp (v k)) := by rw [Finset.sum_div]
    _ = 1 := div_self (ne_of_gt hS)

/-- C3: for every parameter set and every time-major input, `forward`
returns a `[batch_size, num_classes]` array of log-probabilities whose
per-row exponentials sum to exactly one (here over `ℝ`, so the
floating-point tolerance of the claim is exact equality). -/
theorem forward_rows_sum_to_one {I H C B : Nat} (p : ModelParams I H (C + 1))
    (input : List (Fin B → Fin I → ℝ)) (b : Fin B) :
    ∑ j, Real.exp (forward p input b j) = 1 := by
  unfold forward
  exact sum_exp_logSoftmax _

/-- The per-epoch statistics and the optimizer/parameter components of the
loop state never depend on the `hidden` attribute, whether or not it is
reinitialized. -/
theorem runEpochs_stats_hidden_independent {σ : Type} {N S : Nat}
    (upd : σ × MP → BatchData → σ × MP)
    (trainX : Fin N → Fin S → Fin input_dim → ℝ) (trainY : Fin N → List ℤ) :
    ∀ (n : Nat) (st st' : LoopState σ), st.optS = st'.optS → st.params = st'.params →
      (runEpochsReinit upd trainX trainY st n).2 =
          (runEpochsNoReinit upd trainX trainY st' n).2 ∧
        (runEpochsReinit upd trainX trainY st n).1.optS =
          (runEpochsNoReinit upd trainX trainY st' n).1.optS ∧
        (runEpochsReinit upd trainX trainY st n).1.params =
          (runEpochsNoReinit upd trainX trainY st' n).1.params := by
  intro n
  induction n with
  | zero => intro st st' h1 h2; exact ⟨rfl, h1, h2⟩
  | succ n ih =>
      intro st st' h1 h2
      have hb : epochBatches upd trainX trainY (st.optS, st.params) =
          epochBatches upd trainX trainY (st'.optS, st'.params) := by rw [h1, h2]
      simp only [runEpochsReinit, runEpochsNoReinit, epochStepReinit, epochStepNoReinit, hb]
      have ih2 := ih
        ⟨(epochBatches upd trainX trainY (st'.optS, st'.params)).1.1,
         (epochBatches upd trainX trainY (st'.optS, st'.params)).1.2,
         some (init_hidden num_layers batch_size hidden_dim)⟩
        ⟨(epochBatches upd trainX trainY (st'.optS, st'.params)).1.1,
         (epochBatches upd trainX trainY (st'.optS, st'.params)).1.2,
         st'.hidden⟩ rfl rfl
      exact ⟨by rw [ih2.1], ih2.2.1, ih2.2.2⟩

/-- C4: the per-epoch assignment `model.hidden = model.init_hidden()` is
dead code: `forward` never consumes the `hidden` attribute, so the run with
the reinitialization and the run without it produce identical per-epoch
loss/accuracy pairs and identical printed lines, from any initial state. -/
theorem hidden_reinit_dead_code {σ : Type} {N S : Nat}
    (fmt4 : ℝ → String) (fmt2 : ℚ → String)
    (upd : σ × MP → BatchData → σ × MP)
    (trainX : Fin N → Fin S → Fin input_dim → ℝ) (trainY : Fin N → List ℤ)
    (st0 : LoopState σ) :
    (runEpochsReinit upd trainX trainY st0 num_epochs).2 =
        (runEpochsNoReinit upd trainX trainY st0 num_epochs).2 ∧
      trainingLines fmt4 fmt2 upd trainX trainY st0 =
        trainingLinesNoReinit fmt4 fmt2 upd trainX trainY st0 := by
  have h := runEpochs_stats_hidden_independent upd trainX trainY num_epochs st0 st0 rfl rfl
  refine ⟨h.1, ?_⟩
  unfold trainingLines trainingLinesNoReinit
  rw [h.1]

/-- C9: the training loop never reads the test tensors: two runs that
differ only in the contents of `test_X` and `test_Y` (same shapes, encoded
by the shared index types) produce identical per-epoch loss/accuracy pairs
and identical printed lines. -/
theorem test_tensors_noninterference {σ : Type} {N S M S2 : Nat}
    (fmt4 : ℝ → String) (fmt2 : ℚ → String)
    (upd : σ × MP → BatchData → σ × MP)
    (trainX : Fin N → Fin S → Fin input_dim → ℝ) (trainY : Fin N → List ℤ)
    (testX testX' : Fin M → Fin S2 → Fin input_dim → ℝ)
    (testY testY' : Fin M → List ℤ) (st0 : LoopState σ) :
    programEpochStats upd trainX trainY testX testY st0 =
        programEpochStats upd trainX trainY testX' testY' st0 ∧
      programLines fmt4 fmt2 upd trainX trainY testX testY st0 =
        programLines fmt4 fmt2 upd trainX trainY testX' testY' st0 :=
  ⟨rfl, rfl⟩

/-- A run of `n` epochs produces exactly `n` per-epoch statistics. -/
theorem runEpochsReinit_length {σ : Type} {N S : Nat}
    (upd : σ × MP → BatchData → σ × MP)
    (trainX : Fin N → Fin S → Fin input_dim → ℝ) (trainY : Fin N → List ℤ) :
    ∀ (n : Nat) (st : LoopState σ),
      ((runEpochsReinit upd trainX trainY st n).2).length = n := by
  intro n
  induction n with
  | zero => intro st; rfl
  | succ n ih =>
      intro st
      simp only [runEpochsReinit, List.length_cons]
      rw [ih]

/-- C8 (amended): the loop runs exactly 400 epochs and prints exactly one
line per epoch; each line is `epochLine` — the source's format
`Epoch:  %d | NLLoss: %.4f | Train Accuracy: %.2f`, with two spaces after
`Epoch:` and one after the other colons — applied to the epoch index and
the epoch's accumulated loss and accuracy each divided by `num_batches`. -/
theorem epoch_print_format_amended {σ : Type} {N S : Nat}
    (fmt4 : ℝ → String) (fmt2 : ℚ → String)
    (upd : σ × MP → BatchData → σ × MP)
    (trainX : Fin N → Fin S → Fin input_dim → ℝ) (trainY : Fin N → List ℤ)
    (st0 : LoopState σ) :
    num_epochs = 400 ∧
      (trainingLines fmt4 fmt2 upd trainX trainY st0).length = 400 ∧
      trainingLines fmt4 fmt2 upd trainX trainY st0 =
        ((runEpochsReinit upd trainX trainY st0 num_epochs).2.enum).map
          (fun p => epochLine p.1
            (fmt4 (p.2.1 / (num_batchesOf N batch_size : ℝ)))
            (fmt2 (p.2.2 / (num_batchesOf N batch_size : ℚ)))) := by
  refine ⟨rfl, ?_, rfl⟩
  unfold trainingLines
  rw [List.length_map, List.enum_length, runEpochsReinit_length]
  rfl

/-- Unfolding equation for one epoch of the run. -/
theorem runEpochsReinit_succ {σ : Type} {N S : Nat}
    (upd : σ × MP → BatchData → σ × MP)
    (trainX : Fin N → Fin S → Fin input_dim → ℝ) (trainY : Fin N → List ℤ)
    (st : LoopState σ) (n : Nat) :
    runEpochsReinit upd trainX trainY st (n + 1) =
      ((runEpochsReinit upd trainX trainY (epochStepReinit upd trainX trainY st).1 n).1,
        (epochStepReinit upd trainX trainY st).2 ::
          (runEpochsReinit upd trainX trainY (epochStepReinit upd trainX trainY st).1 n).2) :=
  rfl

/-- Counterexample for C8 as stated: in a concrete run the first printed
line is the two-space form `Epoch:  0 | ...`, which differs from the
claimed single-space form `Epoch: 0 | ...` with the same rendered floats. -/
theorem epoch_print_format_counterexample :
    (trainingLines (fun _ => "1.2345") (fun _ => "67.89") (fun s _ => s)
        wTrainX wTrainY wState).head? = some (epochLine 0 "1.2345" "67.89") ∧
      epochLine 0 "1.2345" "67.89" ≠ specEpochLine 0 "1.2345" "67.89" := by
  constructor
  · simp only [trainingLines]
    rw [show num_epochs = 399 + 1 from rfl, runEpochsReinit_succ]
    simp [List.enum_cons]
  · decide

/-- Every index read by minibatch `i` lies below
`num_batches * batch_size`. -/
theorem sliceIdx_lt {N : Nat} (i : Fin (num_batchesOf N batch_size)) (b : Fin batch_size) :
    ((sliceIdx i b : Fin N) : Nat) < num_batchesOf N batch_size * batch_size := by
  have hi : i.val + 1 ≤ num_batchesOf N batch_size := i.isLt
  have hb := b.isLt
  have h1 : i.val * batch_size + b.val < (i.val + 1) * batch_size := by nlinarith
  have h2 : (i.val + 1) * batch_size ≤ num_batchesOf N batch_size * batch_size :=
    Nat.mul_le_mul_right batch_size hi
  simp only [sliceIdx]
  omega

/-- C1: with batch size 35, `num_batches` is the floor of `N / 35`; each
epoch processes exactly `num_batches` minibatches, minibatch `i` being the
contiguous index slice `[i*35, (i+1)*35)`; and the tail examples at indices
at and above `num_batches * 35` are never read: changing them (in both the
feature and the label tensor) leaves the entire run unchanged. -/
theorem training_minibatch_truncation {σ : Type} {N S : Nat}
    (upd : σ × MP → BatchData → σ × MP)
    (trainX trainX' : Fin N → Fin S → Fin input_dim → ℝ)
    (trainY trainY' : Fin N → List ℤ) (st0 : LoopState σ)
    (hX : ∀ k : Fin N, (k : Nat) < num_batchesOf N batch_size * batch_size →
      trainX k = trainX' k)
    (hY : ∀ k : Fin N, (k : Nat) < num_batchesOf N batch_size * batch_size →
      trainY k = trainY' k) :
    (num_batchesOf N batch_size = N / 35 ∧
        num_batchesOf N batch_size * batch_size ≤ N ∧
        N < (num_batchesOf N batch_size + 1) * batch_size) ∧
      (∀ (i : Fin (num_batchesOf N batch_size)) (b : Fin batch_size),
        sliceX trainX i b = trainX (sliceIdx i b) ∧
          ((sliceIdx (N := N) i b : Fin N) : Nat) = (i : Nat) * batch_size + (b : Nat)) ∧
      runEpochsReinit upd trainX trainY st0 num_epochs =
        runEpochsReinit upd trainX' trainY' st0 num_epochs := by
  refine ⟨⟨rfl, ?_, ?_⟩, fun i b => ⟨rfl, rfl⟩, ?_⟩
  · show N / 35 * 35 ≤ N
    omega
  · show N < (N / 35 + 1) * 35
    omega
  · have hsX : ∀ i : Fin (num_batchesOf N batch_size),
        sliceX trainX i = sliceX trainX' i := by
      intro i
      funext b
      exact hX (sliceIdx i b) (sliceIdx_lt i b)
    have hsY : ∀ i : Fin (num_batchesOf N batch_size),
        sliceY trainY i = sliceY trainY' i := by
      intro i
      funext b
      exact hY (sliceIdx i b) (sliceIdx_lt i b)
    have hbs : batchStep (σ := σ) upd trainX trainY = batchStep upd trainX' trainY' := by
      funext acc i
      simp only [batchStep, hsX i, hsY i]
    have heb : epochBatches (σ := σ) upd trainX trainY = epochBatches upd trainX' trainY' := by
      funext sp
      simp only [epochBatches, hbs]
    have hes : epochStepReinit (σ := σ) upd trainX trainY =
        epochStepReinit upd trainX' trainY' := by
      funext st
      simp only [epochStepReinit, heb]
    have hrun : ∀ (n : Nat) (st : LoopState σ),
        runEpochsReinit upd trainX trainY st n = runEpochsReinit upd trainX' trainY' st n := by
      intro n
      induction n with
      | zero => intro st; rfl
      | succ n ihn =>
          intro st
          simp only [runEpochsReinit, hes, ihn]
    exact hrun num_epochs st0

/-- Witness for C1: a 36-example training set (one minibatch, one dropped
tail example); changing only the tail example leaves the whole run equal. -/
theorem training_minibatch_truncation_witness :
    (∀ k : Fin 36, (k : Nat) < num_batchesOf 36 batch_size * batch_size →
        wTrainX k = wTrainX' k) ∧
      runEpochsReinit (fun s _ => s) wTrainX wTrainY wState num_epochs =
        runEpochsReinit (fun s _ => s) wTrainX' wTrainY wState num_epochs := by
  have hX : ∀ k : Fin 36, (k : Nat) < num_batchesOf 36 batch_size * batch_size →
      wTrainX k = wTrainX' k := by
    intro k hk
    have hk35 : (k : Nat) < 35 := by
      simpa [num_batchesOf, batch_size] using hk
    funext t f
    simp [wTrainX, wTrainX', hk35]
  exact ⟨hX, (training_minibatch_truncation (fun s _ => s) wTrainX wTrainX'
    wTrainY wTrainY wState hX (fun k _ => rfl)).2.2⟩

end LSTMGenre
